import Mathlib

/-!
Verification development for the Mole disk-usage analyzer
(`src/cmd/analyze/main.go`, `src/cmd/analyze/constants.go`).

The Go source is shallowly embedded: sizes (`int64`) become `Int`,
times (`time.Time`, `time.Duration`) become `Int` nanoseconds, and
fallible operations return `Except`/`Option`.  Filesystem and external
tool interactions are modelled by explicit environment records that
hold the outcome each underlying call would produce.
-/

namespace Mole

/-! ### Constants (constants.go and the constant block of main.go) -/

/-- `maxEntries = 30`. -/
def maxEntries : Nat := 30

/-- `maxLargeFiles = 30`. -/
def maxLargeFiles : Nat := 30

/-- `minLargeFileSize = 100 << 20` bytes (100 MiB). -/
def minLargeFileSize : Int := 100 * 1048576

/-- `cacheModTimeGrace = 30 * time.Minute`, in nanoseconds.
Declared in constants.go ("Ignore minor directory mtime bumps") but
never referenced by any function in main.go. -/
def cacheModTimeGrace : Int := 1800000000000

/-- The persistent-cache freshness TTL: `7 * 24 * time.Hour`, in
nanoseconds, as hard-coded in `loadCacheFromDisk`. -/
def cacheTTL : Int := 604800000000000

/-! ### Data model (main.go lines 265-303) -/

/-- Go struct `dirEntry`: all five fields are unexported (lower-case). -/
structure dirEntry where
  name : String
  path : String
  size : Int
  isDir : Bool
  lastAccess : Int
deriving Repr, DecidableEq

/-- Go struct `fileEntry`: all three fields are unexported. -/
structure fileEntry where
  name : String
  path : String
  size : Int
deriving Repr, DecidableEq

/-- Go struct `scanResult`. -/
structure scanResult where
  entries : List dirEntry
  largeFiles : List fileEntry
  totalSize : Int
deriving Repr, DecidableEq

/-- Go struct `cacheEntry`: the five fields are exported, but the
element types of the two slices (`dirEntry`, `fileEntry`) are not. -/
structure cacheEntry where
  Entries : List dirEntry
  LargeFiles : List fileEntry
  TotalSize : Int
  ModTime : Int
  ScanTime : Int
deriving Repr, DecidableEq

/-! ### Path helpers (`filepath.Ext`, `filepath.Base`, `strings.ToLower`) -/

/-- Helper for `filepathExt`: scan the reversed character list of a path;
stop with "" at a path separator, return the dot-suffix at the first dot. -/
def extRevScan : List Char → List Char → String
  | [], _ => ""
  | c :: rest, acc =>
    if c = '/' then ""
    else if c = '.' then String.mk ('.' :: acc)
    else extRevScan rest (c :: acc)

/-- Model of Go `filepath.Ext`: the suffix beginning at the final dot in
the final element of the path, empty if there is no dot. -/
def filepathExt (p : String) : String := extRevScan p.data.reverse []

/-- Model of Go `strings.ToLower` (ASCII case is all that extensions use). -/
def toLowerStr (s : String) : String := String.mk (s.data.map Char.toLower)

/-- Split a character list at a separator (model of `strings.Split` with
a one-character separator, as used on `os.PathSeparator`). -/
def splitOnCharAux (sep : Char) : List Char → List Char → List String
  | [], acc => [String.mk acc.reverse]
  | c :: rest, acc =>
    if c = sep then String.mk acc.reverse :: splitOnCharAux sep rest []
    else splitOnCharAux sep rest (c :: acc)

/-- Model of `strings.Split(p, "/")`. -/
def splitPath (p : String) : List String := splitOnCharAux '/' p.data []

/-- Model of Go `filepath.Base`: last element of the path after removing
trailing separators; "/" for the root, "." for the empty path. -/
def filepathBase (p : String) : String :=
  if p = "" then "."
  else
    match ((splitPath p).filter (fun s => s ≠ "")).getLast? with
    | some b => b
    | none => "/"

/-! ### Configuration sets (main.go lines 47-230, first file variant) -/

/-- Keys of the `foldDirs` map in main.go (first variant, lines 47-178). -/
def foldDirs : List String :=
  [".git", ".svn", ".hg",
   "node_modules", ".npm", "_npx", "_cacache", "_logs", "_locks", "_quick",
   "_libvips", "_prebuilds", "_update-notifier-last-checked", ".yarn",
   ".pnpm-store", ".next", ".nuxt", "bower_components", ".vite", ".turbo",
   ".parcel-cache", ".nx", ".rush", "tnpm", ".tnpm", ".bun", ".deno",
   "__pycache__", ".pytest_cache", ".mypy_cache", ".ruff_cache", "venv",
   ".venv", "virtualenv", ".tox", "site-packages", ".eggs", "*.egg-info",
   ".pyenv", ".poetry", ".pip", ".pipx",
   "vendor", ".bundle", "gems", ".rbenv", "target", ".gradle", ".m2",
   ".ivy2", "out", "pkg", "composer.phar", ".composer", ".cargo",
   "build", "dist", ".output", "coverage", ".coverage",
   ".idea", ".vscode", ".vs", ".fleet",
   ".cache", "__MACOSX", ".DS_Store", ".Trash", "Caches",
   ".Spotlight-V100", ".fseventsd", ".DocumentRevisions-V100",
   ".TemporaryItems", "$RECYCLE.BIN", ".temp", ".tmp", "_temp", "_tmp",
   ".Homebrew", ".rustup", ".sdkman", ".nvm",
   "Application Scripts", "Saved Application State", "Mobile Documents",
   ".docker", ".containerd",
   "Pods", "DerivedData", ".build", "xcuserdata", "Carthage",
   ".angular", ".svelte-kit", ".astro", ".solid",
   ".mysql", ".postgres", "mongodb",
   ".terraform", ".vagrant", "tmp", "temp"]

/-- Keys of the `skipExtensions` map in main.go (first variant,
lines 201-230): extensions excluded from large-file tracking. -/
def skipExtensions : List String :=
  [".go", ".js", ".ts", ".jsx", ".tsx", ".py", ".rb", ".java", ".c",
   ".cpp", ".h", ".hpp", ".rs", ".swift", ".m", ".mm", ".sh", ".txt",
   ".md", ".json", ".xml", ".yaml", ".yml", ".toml", ".css", ".scss",
   ".html", ".svg"]

/-- Go `shouldSkipFileForLargeTracking`: lower-case the extension of the
path and test membership in `skipExtensions`. -/
def shouldSkipFileForLargeTracking (path : String) : Bool :=
  skipExtensions.contains (toLowerStr (filepathExt path))

/-- Go `isInFoldedDir`: true when any `/`-separated component of the path
is a `foldDirs` member. -/
def isInFoldedDir (path : String) : Bool :=
  (splitPath path).any (fun part => foldDirs.contains part)

/-! ### Descending sort by size (Go `sort.Slice` with a `>` comparator) -/

/-- Ordering used to sort `fileEntry` lists descending by size. -/
def fileGe (a b : fileEntry) : Prop := b.size ≤ a.size

instance : DecidableRel fileGe := fun a b => Int.decLe b.size a.size

instance : IsTotal fileEntry fileGe := ⟨fun a b => le_total b.size a.size⟩

instance : IsTrans fileEntry fileGe := ⟨fun _ _ _ h1 h2 => le_trans h2 h1⟩

/-- Ordering used to sort `dirEntry` lists descending by size. -/
def dirGe (a b : dirEntry) : Prop := b.size ≤ a.size

instance : DecidableRel dirGe := fun a b => Int.decLe b.size a.size

instance : IsTotal dirEntry dirGe := ⟨fun a b => le_total b.size a.size⟩

instance : IsTrans dirEntry dirGe := ⟨fun _ _ _ h1 h2 => le_trans h2 h1⟩

/-- Size-descending sort of file entries (`sort.Slice` with
`files[i].size > files[j].size`; the Go sort is unstable, so only the
multiset and the non-increasing order are specified). -/
def sortFilesDesc (l : List fileEntry) : List fileEntry := l.insertionSort fileGe

/-- Size-descending sort of directory entries. -/
def sortDirsDesc (l : List dirEntry) : List dirEntry := l.insertionSort dirGe

theorem sortFilesDesc_perm (l : List fileEntry) : List.Perm (sortFilesDesc l) l :=
  List.perm_insertionSort fileGe l

theorem sortFilesDesc_sorted (l : List fileEntry) :
    (sortFilesDesc l).Sorted fileGe :=
  List.sorted_insertionSort fileGe l

theorem sortDirsDesc_perm (l : List dirEntry) : List.Perm (sortDirsDesc l) l :=
  List.perm_insertionSort dirGe l

theorem sortDirsDesc_sorted (l : List dirEntry) :
    (sortDirsDesc l).Sorted dirGe :=
  List.sorted_insertionSort dirGe l

/-! ### `getActualFileSize` (main.go lines 2480-2501) -/

/-- The part of `syscall.Stat_t` the function reads: the number of
allocated 512-byte blocks. -/
structure statT where
  Blocks : Int
deriving Repr, DecidableEq

/-- Go `getActualFileSize(path, info)`: `stat` is `info.Sys()` viewed as
`*syscall.Stat_t` (`none` when the cast fails), `logicalSize` is
`info.Size()`. -/
def getActualFileSize (stat : Option statT) (logicalSize : Int) : Int :=
  match stat with
  | none => logicalSize
  | some s =>
    let actualSize := s.Blocks * 512
    if actualSize < logicalSize then actualSize else logicalSize

/-- C8: for every plain file whose stat metadata is available,
`getActualFileSize` returns the smaller of the block-allocated size
(allocated 512-byte blocks times 512) and the logical size; when the
stat metadata is unavailable it returns the logical size. -/
theorem getActualFileSize_min (st : statT) (logicalSize : Int) :
    getActualFileSize (some st) logicalSize = min (st.Blocks * 512) logicalSize ∧
    getActualFileSize none logicalSize = logicalSize := by
  constructor
  · show (if st.Blocks * 512 < logicalSize then st.Blocks * 512 else logicalSize) = _
    rcases lt_trichotomy (st.Blocks * 512) logicalSize with h | h | h
    · rw [if_pos h, min_eq_left h.le]
    · simp [h]
    · rw [if_neg (not_lt.mpr h.le), min_eq_right h.le]
  · rfl

end Mole

namespace Mole

/-! ### Trimming to the top-N (the Go idiom `if len(l) > n { l = l[:n] }`) -/

/-- Truncate a list to at most `n` elements, as the Go code does after
sorting (`if len(l) > n { l = l[:n] }`). -/
def trimTo (n : Nat) (l : List α) : List α :=
  if n < l.length then l.take n else l

theorem trimTo_length_le (n : Nat) (l : List α) : (trimTo n l).length ≤ n := by
  unfold trimTo
  split
  · simp [List.length_take]
  · omega

theorem trimTo_sublist (n : Nat) (l : List α) : (trimTo n l).Sublist l := by
  unfold trimTo
  split
  · exact List.take_sublist n l
  · exact List.Sublist.refl l

theorem trimTo_subset (n : Nat) (l : List α) : ∀ x ∈ trimTo n l, x ∈ l :=
  fun _ hx => (trimTo_sublist n l).subset hx

/-! ### Spotlight large-file discovery (`findLargeFilesWithSpotlight`,
main.go lines 1568-1628) -/

/-- One line of `mdfind -onlyin root "kMDItemFSSize >= minSize"` output
together with what the subsequent `os.Lstat` would observe for it. -/
structure SpotlightLine where
  path : String
  lstatOk : Bool
  isDirOrSymlink : Bool
  stat : Option statT
  logicalSize : Int
deriving Repr, DecidableEq

/-- The per-line filter body of `findLargeFilesWithSpotlight`: skip empty
lines, code/text extensions, folded directories, Lstat failures,
directories and symlinks; otherwise build a `fileEntry` whose size is the
recomputed actual (block-aware) size. -/
def spotlightKeep (l : SpotlightLine) : Option fileEntry :=
  if l.path = "" then none
  else if shouldSkipFileForLargeTracking l.path then none
  else if isInFoldedDir l.path then none
  else if !l.lstatOk then none
  else if l.isDirOrSymlink then none
  else some { name := filepathBase l.path, path := l.path,
              size := getActualFileSize l.stat l.logicalSize }

/-- Go `findLargeFilesWithSpotlight`: `none` models an `mdfind` failure
(the function returns nil); otherwise filter the lines, sort descending
by size and keep the top `maxLargeFiles`. -/
def findLargeFilesWithSpotlight (mdfindOutput : Option (List SpotlightLine)) :
    List fileEntry :=
  match mdfindOutput with
  | none => []
  | some lines => trimTo maxLargeFiles (sortFilesDesc (lines.filterMap spotlightKeep))

theorem spotlightKeep_some {a : SpotlightLine} {f : fileEntry}
    (h : spotlightKeep a = some f) :
    f.path = a.path ∧ shouldSkipFileForLargeTracking a.path = false := by
  unfold spotlightKeep at h
  split at h
  · exact Option.noConfusion h
  · split at h
    · exact Option.noConfusion h
    · split at h
      · exact Option.noConfusion h
      · split at h
        · exact Option.noConfusion h
        · split at h
          · exact Option.noConfusion h
          · rename_i hskip _ _ _
            cases h
            exact ⟨rfl, Bool.not_eq_true _ ▸ Bool.of_not_eq_true hskip⟩

/-! ### The large-file feed of the concurrent walk
(main.go lines 1399-1401 and 1705-1707) -/

/-- Both walk sites send a file to `largeFileChan` exactly when its
extension is not skip-listed and its actual size reaches
`minLargeFileSize`. -/
def walkLargeFilter (files : List fileEntry) : List fileEntry :=
  files.filter fun f =>
    !shouldSkipFileForLargeTracking f.path && decide (minLargeFileSize ≤ f.size)

theorem walkLargeFilter_mem {files : List fileEntry} {f : fileEntry}
    (h : f ∈ walkLargeFilter files) :
    shouldSkipFileForLargeTracking f.path = false ∧ minLargeFileSize ≤ f.size := by
  have h2 := (List.mem_filter.mp h).2
  rw [Bool.and_eq_true] at h2
  refine ⟨?_, of_decide_eq_true h2.2⟩
  simpa using h2.1

/-! ### Result assembly of `scanPathConcurrent` (main.go lines 1411-1435) -/

/-- The tail of `scanPathConcurrent` after the walk has completed: sort
the collected entries descending and keep the top `maxEntries`; if the
Spotlight query produced a non-empty list it supersedes the walk's
large-file collection, which is otherwise sorted and trimmed. -/
def finishScan (entries : List dirEntry) (walkLarge : List fileEntry)
    (spotlightFiles : List fileEntry) (total : Int) : scanResult :=
  let finalEntries := trimTo maxEntries (sortDirsDesc entries)
  let finalLarge :=
    if 0 < spotlightFiles.length then spotlightFiles
    else trimTo maxLargeFiles (sortFilesDesc walkLarge)
  { entries := finalEntries, largeFiles := finalLarge, totalSize := total }

/-- End-to-end model of the value `scanPathConcurrent` returns, as a
function of the collected directory entries, the files seen by the walk,
the Spotlight output and the accumulated total. -/
def scanPostprocess (entries : List dirEntry) (scannedFiles : List fileEntry)
    (mdfindOutput : Option (List SpotlightLine)) (total : Int) : scanResult :=
  finishScan entries (walkLargeFilter scannedFiles)
    (findLargeFilesWithSpotlight mdfindOutput) total

end Mole

namespace Mole

theorem findLargeFilesWithSpotlight_sorted (o : Option (List SpotlightLine)) :
    (findLargeFilesWithSpotlight o).Sorted fileGe := by
  cases o with
  | none => exact List.sorted_nil
  | some lines =>
    exact List.Pairwise.sublist (trimTo_sublist _ _) (sortFilesDesc_sorted _)

theorem findLargeFilesWithSpotlight_length (o : Option (List SpotlightLine)) :
    (findLargeFilesWithSpotlight o).length ≤ maxLargeFiles := by
  cases o with
  | none => simp [findLargeFilesWithSpotlight]
  | some lines => exact trimTo_length_le _ _

theorem findLargeFilesWithSpotlight_skip (o : Option (List SpotlightLine)) :
    ∀ f ∈ findLargeFilesWithSpotlight o,
      shouldSkipFileForLargeTracking f.path = false := by
  cases o with
  | none => intro f hf; exact absurd hf (List.not_mem_nil f)
  | some lines =>
    intro f hf
    have h1 : f ∈ sortFilesDesc (lines.filterMap spotlightKeep) :=
      trimTo_subset _ _ f hf
    have h2 : f ∈ lines.filterMap spotlightKeep :=
      (sortFilesDesc_perm _).subset h1
    obtain ⟨a, _, ha⟩ := List.mem_filterMap.mp h2
    obtain ⟨hpath, hskip⟩ := spotlightKeep_some ha
    rw [hpath]
    exact hskip

/-- C4 (amended): the result assembled by `scanPathConcurrent` has
`entries` sorted non-increasingly by size with length at most 30, and
`largeFiles` sorted non-increasingly with length at most 30 and no
skip-listed extension; every walk-collected large file is at least
100 MiB, a bound the code enforces only when the Spotlight query
produced nothing usable. -/
theorem scanPathConcurrent_result_spec (entries : List dirEntry)
    (scannedFiles : List fileEntry) (mdfindOutput : Option (List SpotlightLine))
    (total : Int) :
    (scanPostprocess entries scannedFiles mdfindOutput total).entries.Sorted dirGe ∧
    (scanPostprocess entries scannedFiles mdfindOutput total).entries.length ≤ maxEntries ∧
    (scanPostprocess entries scannedFiles mdfindOutput total).largeFiles.Sorted fileGe ∧
    (scanPostprocess entries scannedFiles mdfindOutput total).largeFiles.length ≤ maxLargeFiles ∧
    (∀ f ∈ (scanPostprocess entries scannedFiles mdfindOutput total).largeFiles,
      shouldSkipFileForLargeTracking f.path = false) ∧
    (findLargeFilesWithSpotlight mdfindOutput = [] →
      ∀ f ∈ (scanPostprocess entries scannedFiles mdfindOutput total).largeFiles,
        minLargeFileSize ≤ f.size) := by
  unfold scanPostprocess finishScan
  refine ⟨?_, ?_, ?_, ?_, ?_, ?_⟩
  · exact List.Pairwise.sublist (trimTo_sublist _ _) (sortDirsDesc_sorted _)
  · exact trimTo_length_le _ _
  · simp only
    split
    · exact findLargeFilesWithSpotlight_sorted mdfindOutput
    · exact List.Pairwise.sublist (trimTo_sublist _ _) (sortFilesDesc_sorted _)
  · simp only
    split
    · exact findLargeFilesWithSpotlight_length mdfindOutput
    · exact trimTo_length_le _ _
  · simp only
    split
    · exact findLargeFilesWithSpotlight_skip mdfindOutput
    · intro f hf
      have h1 : f ∈ walkLargeFilter scannedFiles :=
        (sortFilesDesc_perm _).subset (trimTo_subset _ _ f hf)
      exact (walkLargeFilter_mem h1).1
  · intro hempty
    simp only
    split
    · rename_i hpos
      rw [hempty] at hpos
      exact absurd hpos (by simp)
    · intro f hf
      have h1 : f ∈ walkLargeFilter scannedFiles :=
        (sortFilesDesc_perm _).subset (trimTo_subset _ _ f hf)
      exact (walkLargeFilter_mem h1).2

/-- C4 (counterexample): the claim as stated is false. Two subdirectories
of equal size make `entries` non-strictly descending, and a sparse file
surfaced by Spotlight (logical size 200 MiB, 1000 allocated blocks)
appears in `largeFiles` with an actual size far below 100 MiB. -/
theorem scanPathConcurrent_claim_counterexample :
    ¬ ((scanPostprocess [⟨"a", "/t/a", 5, true, 0⟩, ⟨"b", "/t/b", 5, true, 0⟩]
        [] none 0).entries.Pairwise (fun x y => y.size < x.size)) ∧
    (∃ f ∈ (scanPostprocess [] []
        (some [⟨"/t/big.bin", true, false, some ⟨1000⟩, 209715200⟩]) 0).largeFiles,
      f.size < minLargeFileSize) := by decide

end Mole

namespace Mole

/-! ### The large-file tracker (main.go lines 4000-4056, second file
variant) -/

/-- Go struct `largeFileTracker` (the mutex only serialises access and
carries no state). -/
structure largeFileTracker where
  entries : List fileEntry
  minSize : Int
  needsSort : Bool
deriving Repr, DecidableEq

/-- Go `newLargeFileTracker`: empty buffer, threshold at
`minLargeFileSize`, clean. -/
def newLargeFileTracker : largeFileTracker :=
  { entries := [], minSize := minLargeFileSize, needsSort := false }

/-- Go `largeFileTracker.add`: reject below the dynamic threshold,
otherwise append; once the buffer exceeds `maxLargeFiles*3`, sort
descending, trim to `maxLargeFiles` and raise the threshold to the size
at index `maxLargeFiles-1`. -/
def largeFileTracker.add (t : largeFileTracker) (f : fileEntry) : largeFileTracker :=
  if f.size < t.minSize then t
  else if maxLargeFiles * 3 < (t.entries ++ [f]).length then
    if hlen : maxLargeFiles < (sortFilesDesc (t.entries ++ [f])).length then
      { entries := (sortFilesDesc (t.entries ++ [f])).take maxLargeFiles,
        minSize := ((sortFilesDesc (t.entries ++ [f])).get ⟨maxLargeFiles - 1,
          Nat.lt_of_le_of_lt (Nat.sub_le _ _) hlen⟩).size,
        needsSort := false }
    else
      { entries := sortFilesDesc (t.entries ++ [f]), minSize := t.minSize,
        needsSort := false }
  else
    { entries := t.entries ++ [f], minSize := t.minSize, needsSort := true }

/-- Go `largeFileTracker.list`: sort-and-trim once if dirty, then return
the snapshot together with the updated tracker state. -/
def largeFileTracker.list (t : largeFileTracker) : List fileEntry × largeFileTracker :=
  if t.needsSort then
    (trimTo maxLargeFiles (sortFilesDesc t.entries),
     { entries := trimTo maxLargeFiles (sortFilesDesc t.entries),
       minSize := t.minSize, needsSort := false })
  else (t.entries, t)

/-- In a size-descending list, every element of `take n` is at least as
large as the element at index `n - 1`. -/
theorem sorted_take_size_ge {l : List fileEntry} (hs : l.Sorted fileGe) {n : Nat}
    (hlen : n - 1 < l.length) :
    ∀ g ∈ l.take n, (l.get ⟨n - 1, hlen⟩).size ≤ g.size := by
  intro g hg
  obtain ⟨i, hi, hgi⟩ := List.mem_iff_getElem.mp hg
  have hlt : i < n ∧ i < l.length := by
    rw [List.length_take] at hi
    omega
  have hgl : g = l.get ⟨i, hlt.2⟩ := by
    rw [← hgi, List.getElem_take, List.get_eq_getElem]
  rcases Nat.lt_or_ge i (n - 1) with hcase | hcase
  · have hrel := List.pairwise_iff_getElem.mp hs i (n - 1) hlt.2 hlen hcase
    rw [hgl]
    simpa [fileGe, List.get_eq_getElem] using hrel
  · have hieq : i = n - 1 := by omega
    subst hieq
    rw [hgl]

/-- All elements of the sorted permutation come from the original list. -/
theorem sortFilesDesc_mem {l : List fileEntry} {g : fileEntry}
    (h : g ∈ sortFilesDesc l) : g ∈ l :=
  (sortFilesDesc_perm l).subset h

end Mole

namespace Mole

/-- C7: `add(f)` leaves the tracker unchanged when `f.size` is below the
dynamic minimum threshold and otherwise appends `f`; only when the buffer
exceeds three times the 30-entry cap does it sort descending, trim to 30
and set the threshold to the 30th-largest size; `list()` sorts-and-trims
once when the buffer is dirty and returns the size-descending top-30
snapshot. -/
theorem largeFileTracker_add_list_contract (t : largeFileTracker) (f : fileEntry) :
    (f.size < t.minSize → t.add f = t) ∧
    (t.minSize ≤ f.size → (t.entries ++ [f]).length ≤ maxLargeFiles * 3 →
      t.add f = { entries := t.entries ++ [f], minSize := t.minSize,
                  needsSort := true }) ∧
    (t.minSize ≤ f.size → maxLargeFiles * 3 < (t.entries ++ [f]).length →
      ∃ l, List.Perm l (t.entries ++ [f]) ∧ l.Sorted fileGe ∧
        (t.add f).entries = l.take maxLargeFiles ∧
        (∃ hl : maxLargeFiles - 1 < l.length,
          (t.add f).minSize = (l.get ⟨maxLargeFiles - 1, hl⟩).size) ∧
        (t.add f).needsSort = false) ∧
    (t.needsSort = true →
      ∃ l, List.Perm l t.entries ∧ l.Sorted fileGe ∧
        (t.list).1 = trimTo maxLargeFiles l ∧
        (t.list).2 = { entries := (t.list).1, minSize := t.minSize,
                       needsSort := false }) ∧
    (t.needsSort = false → (t.list).1 = t.entries ∧ (t.list).2 = t) := by
  refine ⟨?_, ?_, ?_, ?_, ?_⟩
  · intro h
    unfold largeFileTracker.add
    rw [if_pos h]
  · intro h1 h2
    unfold largeFileTracker.add
    rw [if_neg (not_lt.mpr h1), if_neg (not_lt.mpr h2)]
  · intro h1 h2
    have hlen : maxLargeFiles < (sortFilesDesc (t.entries ++ [f])).length := by
      rw [(sortFilesDesc_perm (t.entries ++ [f])).length_eq]
      unfold maxLargeFiles at h2 ⊢
      omega
    have hadd : t.add f =
        { entries := (sortFilesDesc (t.entries ++ [f])).take maxLargeFiles,
          minSize := ((sortFilesDesc (t.entries ++ [f])).get ⟨maxLargeFiles - 1,
            Nat.lt_of_le_of_lt (Nat.sub_le _ _) hlen⟩).size,
          needsSort := false } := by
      unfold largeFileTracker.add
      rw [if_neg (not_lt.mpr h1), if_pos h2, dif_pos hlen]
    refine ⟨sortFilesDesc (t.entries ++ [f]), sortFilesDesc_perm _,
      sortFilesDesc_sorted _, ?_, ?_, ?_⟩
    · rw [hadd]
    · exact ⟨Nat.lt_of_le_of_lt (Nat.sub_le _ _) hlen, by rw [hadd]⟩
    · rw [hadd]
  · intro h
    refine ⟨sortFilesDesc t.entries, sortFilesDesc_perm _,
      sortFilesDesc_sorted _, ?_, ?_⟩
    · unfold largeFileTracker.list
      rw [if_pos h]
    · unfold largeFileTracker.list
      rw [if_pos h]
  · intro h
    unfold largeFileTracker.list
    rw [if_neg (by simp [h])]
    exact ⟨rfl, rfl⟩

/-- Witness for C7 at concrete inputs: a 1-byte file is rejected by a
fresh tracker, while a 200 MiB file is appended. -/
theorem largeFileTracker_add_list_contract_witness :
    (newLargeFileTracker.add ⟨"s", "/s.bin", 1⟩ = newLargeFileTracker) ∧
    (newLargeFileTracker.add ⟨"b", "/b.bin", 209715200⟩ =
      { entries := newLargeFileTracker.entries ++ [⟨"b", "/b.bin", 209715200⟩],
        minSize := newLargeFileTracker.minSize, needsSort := true }) := by
  constructor
  · exact (largeFileTracker_add_list_contract newLargeFileTracker _).1 (by decide)
  · exact (largeFileTracker_add_list_contract newLargeFileTracker
      ⟨"b", "/b.bin", 209715200⟩).2.1 (by decide) (by decide)

/-! ### Reachable tracker states (for the C10 invariant) -/

/-- States a `largeFileTracker` can be in after any sequence of `add`
and `list` calls starting from `newLargeFileTracker`. -/
inductive TrackerReachable : largeFileTracker → Prop where
  | newT : TrackerReachable newLargeFileTracker
  | addT (t : largeFileTracker) (f : fileEntry) :
      TrackerReachable t → TrackerReachable (t.add f)
  | listT (t : largeFileTracker) :
      TrackerReachable t → TrackerReachable (t.list).2

/-- Invariant maintained by the tracker: the threshold never drops below
`minLargeFileSize` and every buffered entry meets the threshold. -/
def trackerInv (t : largeFileTracker) : Prop :=
  minLargeFileSize ≤ t.minSize ∧ ∀ g ∈ t.entries, t.minSize ≤ g.size

theorem add_preserves_trackerInv {t : largeFileTracker} (f : fileEntry)
    (h : trackerInv t) : trackerInv (t.add f) ∧ t.minSize ≤ (t.add f).minSize := by
  obtain ⟨hmin, hall⟩ := h
  unfold largeFileTracker.add
  split
  · exact ⟨⟨hmin, hall⟩, le_refl _⟩
  · rename_i hf
    have hfge : t.minSize ≤ f.size := not_lt.mp hf
    have hallf : ∀ g ∈ t.entries ++ [f], t.minSize ≤ g.size := by
      intro g hg
      rcases List.mem_append.mp hg with hg | hg
      · exact hall g hg
      · rw [List.mem_singleton.mp hg]
        exact hfge
    split
    · split
      · rename_i hlen
        have hgetmem : (sortFilesDesc (t.entries ++ [f])).get
            ⟨maxLargeFiles - 1, Nat.lt_of_le_of_lt (Nat.sub_le _ _) hlen⟩ ∈
            t.entries ++ [f] :=
          sortFilesDesc_mem (List.get_mem _ _ _)
        have hnewmin : t.minSize ≤ ((sortFilesDesc (t.entries ++ [f])).get
            ⟨maxLargeFiles - 1, Nat.lt_of_le_of_lt (Nat.sub_le _ _) hlen⟩).size :=
          hallf _ hgetmem
        refine ⟨⟨le_trans hmin hnewmin, ?_⟩, hnewmin⟩
        intro g hg
        exact sorted_take_size_ge (sortFilesDesc_sorted _) _ g hg
      · refine ⟨⟨hmin, ?_⟩, le_refl _⟩
        intro g hg
        exact hallf g (sortFilesDesc_mem hg)
    · refine ⟨⟨hmin, hallf⟩, le_refl _⟩

theorem list_preserves_trackerInv {t : largeFileTracker}
    (h : trackerInv t) : trackerInv (t.list).2 ∧ (t.list).2.minSize = t.minSize := by
  obtain ⟨hmin, hall⟩ := h
  unfold largeFileTracker.list
  split
  · refine ⟨⟨hmin, ?_⟩, rfl⟩
    intro g hg
    exact hall g (sortFilesDesc_mem (trimTo_subset _ _ g hg))
  · exact ⟨⟨hmin, hall⟩, rfl⟩

theorem reachable_trackerInv {t : largeFileTracker}
    (h : TrackerReachable t) : trackerInv t := by
  induction h with
  | newT =>
    exact ⟨le_refl _, fun g hg => absurd hg (List.not_mem_nil g)⟩
  | addT t f _ ih => exact (add_preserves_trackerInv f ih).1
  | listT t _ ih => exact (list_preserves_trackerInv ih).1

/-- C10: the dynamic minimum threshold starts at 100 MiB, never decreases
under `add` or `list`, every buffered entry met the threshold that
admitted it, and every file returned by `list()` is at least 100 MiB. -/
theorem largeFileTracker_threshold_monotone (t : largeFileTracker)
    (h : TrackerReachable t) :
    newLargeFileTracker.minSize = minLargeFileSize ∧
    minLargeFileSize ≤ t.minSize ∧
    (∀ f, t.minSize ≤ (t.add f).minSize) ∧
    t.minSize ≤ (t.list).2.minSize ∧
    (∀ g ∈ t.entries, t.minSize ≤ g.size) ∧
    (∀ g ∈ (t.list).1, minLargeFileSize ≤ g.size) := by
  have hinv := reachable_trackerInv h
  refine ⟨rfl, hinv.1, ?_, ?_, hinv.2, ?_⟩
  · intro f
    exact (add_preserves_trackerInv f hinv).2
  · exact le_of_eq (list_preserves_trackerInv hinv).2.symm
  · intro g hg
    have hmem : g ∈ t.entries := by
      revert hg
      unfold largeFileTracker.list
      split
      · intro hg
        exact sortFilesDesc_mem (trimTo_subset _ _ g hg)
      · intro hg
        exact hg
    exact le_trans hinv.1 (hinv.2 g hmem)

/-- Witness for C10 at the initial tracker state. -/
theorem largeFileTracker_threshold_monotone_witness :
    newLargeFileTracker.minSize = minLargeFileSize ∧
    minLargeFileSize ≤ newLargeFileTracker.minSize ∧
    (∀ f, newLargeFileTracker.minSize ≤ (newLargeFileTracker.add f).minSize) ∧
    newLargeFileTracker.minSize ≤ (newLargeFileTracker.list).2.minSize ∧
    (∀ g ∈ newLargeFileTracker.entries, newLargeFileTracker.minSize ≤ g.size) ∧
    (∀ g ∈ (newLargeFileTracker.list).1, minLargeFileSize ≤ g.size) :=
  largeFileTracker_threshold_monotone newLargeFileTracker TrackerReachable.newT

end Mole

namespace Mole

/-! ### Gob encodability of the cache record

`saveCacheToDisk` serialises `cacheEntry` with `encoding/gob`.  Gob
compiles an encoder engine from the static Go types before writing any
value: every struct reached through exported fields contributes one
instruction per exported field, and a reachable struct that has fields
but no exported ones aborts with "type has no exported fields".  The
following small type language captures exactly the types appearing in
`cacheEntry` and that compile-time rule. -/

mutual
inductive GobTy where
  | prim : GobTy
  | slice : GobTy → GobTy
  | struct : GobFields → GobTy

inductive GobFields where
  | nil : GobFields
  | cons : String → GobTy → GobFields → GobFields
end

/-- Go exports a struct field iff its name starts with an upper-case
letter. -/
def isExportedField (name : String) : Bool :=
  match name.data with
  | [] => false
  | c :: _ => c.isUpper

def gobNumFields : GobFields → Nat
  | .nil => 0
  | .cons _ _ rest => gobNumFields rest + 1

def gobNumExported : GobFields → Nat
  | .nil => 0
  | .cons n _ rest => (if isExportedField n then 1 else 0) + gobNumExported rest

mutual
/-- Whether gob's `compileEnc` succeeds on a type: primitives and
self-encoding types always do; a slice compiles iff its element type
does; a struct compiles iff every exported field's type compiles and it
is not a non-empty struct with zero exported fields. -/
def gobCompileOk : GobTy → Bool
  | .prim => true
  | .slice t => gobCompileOk t
  | .struct fs =>
    gobFieldsOk fs && !(gobNumFields fs != 0 && gobNumExported fs == 0)

def gobFieldsOk : GobFields → Bool
  | .nil => true
  | .cons n t rest => (!isExportedField n || gobCompileOk t) && gobFieldsOk rest
end

/-- The gob view of Go struct `dirEntry`: five unexported fields. -/
def dirEntryTy : GobTy :=
  .struct (.cons "name" .prim (.cons "path" .prim (.cons "size" .prim
    (.cons "isDir" .prim (.cons "lastAccess" .prim .nil)))))

/-- The gob view of Go struct `fileEntry`: three unexported fields. -/
def fileEntryTy : GobTy :=
  .struct (.cons "name" .prim (.cons "path" .prim (.cons "size" .prim .nil)))

/-- The gob view of Go struct `cacheEntry`: five exported fields, two of
which are slices of the unexported-field structs above (`time.Time`
self-encodes, hence `prim`). -/
def cacheEntryTy : GobTy :=
  .struct (.cons "Entries" (.slice dirEntryTy)
    (.cons "LargeFiles" (.slice fileEntryTy)
      (.cons "TotalSize" .prim
        (.cons "ModTime" .prim
          (.cons "ScanTime" .prim .nil)))))

/-! ### Persistent cache on disk (main.go lines 2401-2476) -/

/-- What the per-path cache file currently holds: a decodable record, or
bytes that fail gob decoding (for instance the empty file a failed
`saveCacheToDisk` leaves behind after `os.Create` truncated it). -/
inductive DiskFile where
  | record (e : cacheEntry)
  | corrupt
deriving Repr, DecidableEq

/-- The environment of the cache functions: the cache directory keyed by
scanned path (`getCachePath` hashes the path to a filename), each
directory's current modification time (`none` models a `Stat` failure)
and the current wall-clock time, all in nanoseconds. -/
structure CacheFs where
  disk : String → Option DiskFile
  dirModTime : String → Option Int
  now : Int

/-- Go `loadCacheFromDisk`: open and decode the record, then invalidate
when the directory was modified after the recorded time
(`info.ModTime().After(entry.ModTime)`) or the record is older than
7 days (`time.Since(entry.ScanTime) > 7*24*time.Hour`). -/
def loadCacheFromDisk (fs : CacheFs) (path : String) : Except String cacheEntry :=
  match fs.disk path with
  | none => .error "open: no such file or directory"
  | some .corrupt => .error "gob: decode failed"
  | some (.record entry) =>
    match fs.dirModTime path with
    | none => .error "stat failed"
    | some m =>
      if entry.ModTime < m then .error "cache expired: directory modified"
      else if cacheTTL < fs.now - entry.ScanTime then .error "cache expired: too old"
      else .ok entry

/-- Go `saveCacheToDisk`: stat the directory, build the record,
`os.Create` the cache file (truncating it) and gob-encode the record
into it.  The encode step succeeds only if gob can compile an encoder
for `cacheEntry`. -/
def saveCacheToDisk (fs : CacheFs) (path : String) (result : scanResult) :
    CacheFs × Option String :=
  match fs.dirModTime path with
  | none => (fs, some "stat failed")
  | some m =>
    if gobCompileOk cacheEntryTy then
      ({ fs with disk := fun p =>
          (if p = path then
            some (DiskFile.record
              { Entries := result.entries, LargeFiles := result.largeFiles,
                TotalSize := result.totalSize, ModTime := m, ScanTime := fs.now })
          else fs.disk p) },
       none)
    else
      ({ fs with disk := fun p =>
          (if p = path then some DiskFile.corrupt else fs.disk p) },
       some "gob: type has no exported fields")

/-- What a scan of `path` would compute if the walk runs
(`scanPathConcurrent`). -/
structure ScanEnv where
  walkResult : scanResult

/-- Go `model.scanCmd` (main.go lines 575-609): serve from the persistent
cache when `loadCacheFromDisk` succeeds, otherwise run the walk (through
the singleflight group) and save the result.  The middle component
counts how many filesystem walks this request performed. -/
def scanCmd (fs : CacheFs) (env : ScanEnv) (path : String) :
    scanResult × Nat × CacheFs :=
  match loadCacheFromDisk fs path with
  | .ok cached =>
    ({ entries := cached.Entries, largeFiles := cached.LargeFiles,
       totalSize := cached.TotalSize }, 0, fs)
  | .error _ =>
    (env.walkResult, 1, (saveCacheToDisk fs path env.walkResult).1)

end Mole

namespace Mole

/-- The validity rule exactly as claim C3 words it (for comparison with
the code): a record is valid when the current modification time exceeds
the stored one by no more than `cacheModTimeGrace` and the record is at
most `cacheTTL` old. -/
def claimedCacheValid (e : cacheEntry) (dirModTime now : Int) : Bool :=
  decide (dirModTime ≤ e.ModTime + cacheModTimeGrace) &&
  decide (now - e.ScanTime ≤ cacheTTL)

/-- C3 (amended): a decodable persisted record is treated as valid
exactly when the directory's current modification time does not exceed
the stored modification time at all — the 30-minute grace constant is
declared but never applied — and the record is at most 7 days old. -/
theorem loadCacheFromDisk_validity (fs : CacheFs) (path : String)
    (e : cacheEntry) (m : Int)
    (hrec : fs.disk path = some (DiskFile.record e))
    (hstat : fs.dirModTime path = some m) :
    loadCacheFromDisk fs path = .ok e ↔
      (m ≤ e.ModTime ∧ fs.now - e.ScanTime ≤ cacheTTL) := by
  have hload : loadCacheFromDisk fs path =
      (if e.ModTime < m then Except.error "cache expired: directory modified"
       else if cacheTTL < fs.now - e.ScanTime then
         Except.error "cache expired: too old"
       else Except.ok e) := by
    unfold loadCacheFromDisk
    rw [hrec, hstat]
  rw [hload]
  by_cases h1 : e.ModTime < m
  · rw [if_pos h1]
    constructor
    · intro h
      exact Except.noConfusion h
    · rintro ⟨ha, _⟩
      omega
  · rw [if_neg h1]
    by_cases h2 : cacheTTL < fs.now - e.ScanTime
    · rw [if_pos h2]
      constructor
      · intro h
        exact Except.noConfusion h
      · rintro ⟨_, hb⟩
        omega
    · rw [if_neg h2]
      constructor
      · intro _
        exact ⟨not_lt.mp h1, not_lt.mp h2⟩
      · intro _
        rfl

/-- A fresh record: directory mtime 10, scanned at time 0. -/
def cacheEntryFresh : cacheEntry :=
  { Entries := [], LargeFiles := [], TotalSize := 7, ModTime := 10, ScanTime := 0 }

/-- A disk state holding `cacheEntryFresh` for path "/d" whose directory
mtime (5) has not moved past the stored one, observed at time 100. -/
def cacheFsFresh : CacheFs :=
  { disk := fun p => (if p = "/d" then some (DiskFile.record cacheEntryFresh) else none),
    dirModTime := fun p => (if p = "/d" then some 5 else none),
    now := 100 }

/-- Witness for C3 at a concrete valid record. -/
theorem loadCacheFromDisk_validity_witness :
    loadCacheFromDisk cacheFsFresh "/d" = .ok cacheEntryFresh :=
  (loadCacheFromDisk_validity cacheFsFresh "/d" cacheEntryFresh 5 rfl rfl).mpr
    ⟨by decide, by decide⟩

/-- A record scanned at time 0 with stored directory mtime 0. -/
def cacheEntryStale : cacheEntry :=
  { Entries := [], LargeFiles := [], TotalSize := 7, ModTime := 0, ScanTime := 0 }

/-- A disk state where the directory mtime was bumped by one minute
(60s, well inside the 30-minute grace window) after the scan. -/
def cacheFsBumped : CacheFs :=
  { disk := fun p => (if p = "/d" then some (DiskFile.record cacheEntryStale) else none),
    dirModTime := fun p => (if p = "/d" then some 60000000000 else none),
    now := 0 }

/-- C3 (counterexample): a one-minute mtime bump is inside the claimed
grace window, yet `loadCacheFromDisk` reports a miss. -/
theorem loadCacheFromDisk_grace_counterexample :
    claimedCacheValid cacheEntryStale 60000000000 0 = true ∧
    loadCacheFromDisk cacheFsBumped "/d" = .error "cache expired: directory modified" := by
  exact ⟨by decide, rfl⟩

/-- The scan result of a first walk of "/d": one subdirectory of 42
bytes. -/
def scanResultFirst : scanResult :=
  { entries := [⟨"sub", "/d/sub", 42, true, 0⟩], largeFiles := [], totalSize := 42 }

/-- An initially empty cache directory; "/d" exists with mtime 5 and the
clock reads 0 (so the 7-day TTL and the mtime check could not possibly
reject a saved record). -/
def cacheFsEmpty : CacheFs :=
  { disk := fun _ => none,
    dirModTime := fun p => (if p = "/d" then some 5 else none),
    now := 0 }

/-- C1: the claim describes the intended design, but the code cannot
deliver it: gob refuses to compile an encoder for `cacheEntry` because
the slice element structs `dirEntry` and `fileEntry` have no exported
fields, so `saveCacheToDisk` always returns an error (leaving a
truncated cache file), `loadCacheFromDisk` afterwards always misses,
and a repeated `scanCmd` of the same unchanged path performs a second
filesystem walk instead of being served from the cache. -/
theorem persistentCache_roundtrip_never_succeeds :
    gobCompileOk cacheEntryTy = false ∧
    (saveCacheToDisk cacheFsEmpty "/d" scanResultFirst).2 =
      some "gob: type has no exported fields" ∧
    (loadCacheFromDisk (saveCacheToDisk cacheFsEmpty "/d" scanResultFirst).1 "/d").isOk
      = false ∧
    (scanCmd cacheFsEmpty ⟨scanResultFirst⟩ "/d").2.1 = 1 ∧
    (scanCmd (scanCmd cacheFsEmpty ⟨scanResultFirst⟩ "/d").2.2
      ⟨scanResultFirst⟩ "/d").2.1 = 1 :=
  ⟨rfl, rfl, rfl, rfl, rfl⟩

end Mole

namespace Mole

/-! ### Overview size measurement (`measureOverviewSize`, main.go lines
2220-2260, first file variant) -/

/-- Outcomes the individual size calls would produce for a path:
`loadStoredOverviewSize` (JSON overview cache), `getDirectorySizeFromDu`,
`getDirectorySizeFromMetadata` (mdls), `getDirectoryLogicalSize` (full
walk) and `loadCacheFromDisk` (persistent gob cache); `none` models the
call failing.  `statOk` is whether `os.Stat(path)` succeeds. -/
structure MeasureEnv where
  statOk : Bool
  jsonCache : Option Int
  du : Option Int
  mdls : Option Int
  walk : Option Int
  gobCache : Option cacheEntry

/-- Each Go call site accepts a strategy result only on
`err == nil && size > 0`. -/
def posOpt (o : Option Int) : Option Int :=
  match o with
  | some v => if 0 < v then some v else none
  | none => none

/-- Model of Unix `filepath.IsAbs`: the path starts with a slash
(`filepath.Clean` preserves absoluteness and is not modelled). -/
def isAbsPath (p : String) : Bool :=
  match p.data with
  | [] => false
  | c :: _ => c = '/'

/-- Go `measureOverviewSize`: validate the path, then try the JSON
overview cache, `du`, the logical walk and finally the persistent gob
cache, in that order; error out when everything fails. -/
def measureOverviewSize (env : MeasureEnv) (path : String) : Except String Int :=
  if path = "" then .error "empty path"
  else if !isAbsPath path then .error "path must be absolute"
  else if !env.statOk then .error "cannot access path"
  else
    match posOpt env.jsonCache with
    | some cached => .ok cached
    | none =>
      match posOpt env.du with
      | some duSize => .ok duSize
      | none =>
        match posOpt env.walk with
        | some logicalSize => .ok logicalSize
        | none =>
          match env.gobCache with
          | some cached => .ok cached.TotalSize
          | none => .error "unable to measure directory size with fast methods"

/-- The strategy chain exactly as claim C2 words it (for comparison with
the code): fast external summarizer (du), then the metadata index query
(mdls), then the full logical walk, first success wins. -/
def measureOverviewSizeClaimed (env : MeasureEnv) (path : String) : Except String Int :=
  if path = "" then .error "empty path"
  else if !isAbsPath path then .error "path must be absolute"
  else if !env.statOk then .error "cannot access path"
  else
    match posOpt env.du with
    | some duSize => .ok duSize
    | none =>
      match posOpt env.mdls with
      | some metadataSize => .ok metadataSize
      | none =>
        match posOpt env.walk with
        | some logicalSize => .ok logicalSize
        | none => .error "unable to measure directory size with fast methods"

theorem posOpt_pos {o : Option Int} {v : Int} (h : posOpt o = some v) : 0 < v := by
  cases o with
  | none => exact Option.noConfusion h
  | some w =>
    by_cases hw : 0 < w
    · have hred : posOpt (some w) = some w := by
        show (if 0 < w then some w else none) = some w
        rw [if_pos hw]
      rw [hred] at h
      cases h
      exact hw
    · have hred : posOpt (some w) = none := by
        show (if 0 < w then some w else none) = none
        rw [if_neg hw]
      rw [hred] at h
      exact Option.noConfusion h

/-- An environment where du fails, mdls would succeed with 42, and the
walk succeeds with 100. -/
def measureEnvDiverge : MeasureEnv :=
  { statOk := true, jsonCache := none, du := none, mdls := some 42,
    walk := some 100, gobCache := none }

/-- C2 (counterexample): when du fails but mdls would succeed, the claim
says the mdls result (42) is returned; the code ignores mdls entirely
and returns the walk result (100). -/
theorem measureOverviewSize_claim_counterexample :
    measureOverviewSize measureEnvDiverge "/Users" = .ok 100 ∧
    measureOverviewSizeClaimed measureEnvDiverge "/Users" = .ok 42 ∧
    measureOverviewSize measureEnvDiverge "/Users" ≠
      measureOverviewSizeClaimed measureEnvDiverge "/Users" :=
  ⟨rfl, rfl, fun h => absurd (Except.ok.inj h) (by decide)⟩

/-- C2 (amended): for a non-empty absolute path that stats, with no
usable JSON-cached size, the code tries du, then the full logical walk,
then the persistent scan cache, accepting the first usable result; the
mdls metadata strategy is never consulted, and total failure returns an
error; every non-error result is positive except a persistent-cache
fallback, which returns the cached totalSize as is. -/
theorem measureOverviewSize_strategy_order (env : MeasureEnv) (path : String)
    (hne : path ≠ "") (habs : isAbsPath path = true) (hstat : env.statOk = true)
    (hjson : posOpt env.jsonCache = none) :
    (∀ s, measureOverviewSize { env with mdls := s } path =
      measureOverviewSize env path) ∧
    (∀ d, posOpt env.du = some d → measureOverviewSize env path = .ok d) ∧
    (∀ w, posOpt env.du = none → posOpt env.walk = some w →
      measureOverviewSize env path = .ok w) ∧
    (∀ c, posOpt env.du = none → posOpt env.walk = none →
      env.gobCache = some c → measureOverviewSize env path = .ok c.TotalSize) ∧
    (posOpt env.du = none → posOpt env.walk = none → env.gobCache = none →
      measureOverviewSize env path =
        .error "unable to measure directory size with fast methods") ∧
    (∀ v, measureOverviewSize env path = .ok v →
      0 < v ∨ ∃ c, env.gobCache = some c ∧ v = c.TotalSize) := by
  have hbase : measureOverviewSize env path =
      (match posOpt env.du with
       | some duSize => .ok duSize
       | none =>
         match posOpt env.walk with
         | some logicalSize => .ok logicalSize
         | none =>
           match env.gobCache with
           | some cached => .ok cached.TotalSize
           | none => .error "unable to measure directory size with fast methods") := by
    unfold measureOverviewSize
    rw [if_neg hne, if_neg (by simp [habs]), if_neg (by simp [hstat]), hjson]
  refine ⟨fun s => rfl, ?_, ?_, ?_, ?_, ?_⟩
  · intro d hd
    rw [hbase, hd]
  · intro w hd hw
    rw [hbase, hd, hw]
  · intro c hd hw hc
    rw [hbase, hd, hw, hc]
  · intro hd hw hc
    rw [hbase, hd, hw, hc]
  · intro v hv
    rw [hbase] at hv
    cases hdu : posOpt env.du with
    | some d =>
      rw [hdu] at hv
      left
      rw [← Except.ok.inj hv]
      exact posOpt_pos hdu
    | none =>
      rw [hdu] at hv
      cases hwalk : posOpt env.walk with
      | some w =>
        rw [hwalk] at hv
        left
        rw [← Except.ok.inj hv]
        exact posOpt_pos hwalk
      | none =>
        rw [hwalk] at hv
        cases hgob : env.gobCache with
        | some c =>
          rw [hgob] at hv
          right
          exact ⟨c, rfl, (Except.ok.inj hv).symm⟩
        | none =>
          rw [hgob] at hv
          exact Except.noConfusion hv

/-- An environment where du succeeds with 9999. -/
def measureEnvDu : MeasureEnv :=
  { statOk := true, jsonCache := none, du := some 9999, mdls := none,
    walk := none, gobCache := none }

/-- Witness for C2 at a concrete environment where du succeeds. -/
theorem measureOverviewSize_strategy_order_witness :
    measureOverviewSize measureEnvDu "/Users" = .ok 9999 :=
  (measureOverviewSize_strategy_order measureEnvDu "/Users" (by decide) rfl rfl
    rfl).2.1 9999 rfl

end Mole

namespace Mole

/-! ### Deletion executor (`deletePathWithProgress`, main.go lines
2179-2213) and the cache dirtying in `model.Update` (lines 621-641) -/

mutual
/-- A filesystem subtree: each file records whether `os.Remove` would
succeed on it (permission-style failures are per-file). -/
inductive FsNode where
  | file (name : String) (removable : Bool)
  | dir (name : String) (children : FsForest)

inductive FsForest where
  | nil
  | cons (n : FsNode) (rest : FsForest)
end

mutual
def countFiles : FsNode → Int
  | .file _ _ => 1
  | .dir _ cs => countFilesF cs

def countFilesF : FsForest → Int
  | .nil => 0
  | .cons n rest => countFiles n + countFilesF rest
end

mutual
/-- Files the walk's `os.Remove` calls delete (and count). -/
def countRemoved : FsNode → Int
  | .file _ r => if r then 1 else 0
  | .dir _ cs => countRemovedF cs

def countRemovedF : FsForest → Int
  | .nil => 0
  | .cons n rest => countRemoved n + countRemovedF rest
end

mutual
def allRemovable : FsNode → Bool
  | .file _ r => r
  | .dir _ cs => allRemovableF cs

def allRemovableF : FsForest → Bool
  | .nil => true
  | .cons n rest => allRemovable n && allRemovableF rest
end

mutual
/-- What `os.RemoveAll` leaves behind: removable files and emptied
directories disappear; a directory survives exactly while an
unremovable file remains beneath it. -/
def pruneNode : FsNode → Option FsNode
  | .file n r => if r then none else some (.file n r)
  | .dir n cs =>
    match pruneForest cs with
    | .nil => none
    | rest => some (.dir n rest)

def pruneForest : FsForest → FsForest
  | .nil => .nil
  | .cons c rest =>
    match pruneNode c with
    | none => pruneForest rest
    | some c2 => .cons c2 (pruneForest rest)
end

/-- Filesystem calls the delete operation issues. -/
inductive FsOp where
  | walkDir (path : String)
  | removeAll (path : String)
deriving Repr, DecidableEq

structure DeleteOutcome where
  count : Int
  fsError : Option String
  remaining : Option FsNode
  ops : List FsOp

/-- Go `deletePathWithProgress`: no validation of `root` — the function
immediately calls `filepath.WalkDir(root, ...)`, deleting files and
counting successes (per-file failures are skipped), then calls
`os.RemoveAll(root)`.  `fsAtRoot` is the subtree at `root` (`none` when
the path does not exist — for instance the empty path); `ops` records
the filesystem calls made. -/
def deletePathWithProgress (fsAtRoot : Option FsNode) (root : String) : DeleteOutcome :=
  match fsAtRoot with
  | none =>
    { count := 0, fsError := none, remaining := none,
      ops := [FsOp.walkDir root, FsOp.removeAll root] }
  | some tree =>
    { count := countRemoved tree,
      fsError := (if allRemovable tree then none else some "remove failed"),
      remaining := pruneNode tree,
      ops := [FsOp.walkDir root, FsOp.removeAll root] }

structure HistEntrySt where
  path : String
  dirty : Bool
deriving Repr, DecidableEq

/-- The slice of the Bubble Tea `model` that the delete-completion
branch touches: the navigation history and the per-path snapshot cache. -/
structure UiModel where
  history : List HistEntrySt
  cache : List (String × HistEntrySt)
deriving Repr, DecidableEq

/-- The `deleteProgressMsg` arm of `model.Update` with `done = true`: on
success every navigation-history entry and every per-path cache snapshot
is marked dirty; on failure only a status message is set. -/
def applyDeleteDone (m : UiModel) (err : Option String) : UiModel :=
  match err with
  | some _ => m
  | none =>
    { history := m.history.map (fun h => { h with dirty := true }),
      cache := m.cache.map (fun kv => (kv.1, { kv.2 with dirty := true })) }

mutual
theorem countRemoved_eq_countFiles (t : FsNode) (h : allRemovable t = true) :
    countRemoved t = countFiles t := by
  cases t with
  | file n r =>
    rw [allRemovable] at h
    rw [countRemoved, countFiles, if_pos h]
  | dir n cs =>
    rw [allRemovable] at h
    rw [countRemoved, countFiles, countRemovedF_eq_countFilesF cs h]

theorem countRemovedF_eq_countFilesF (f : FsForest) (h : allRemovableF f = true) :
    countRemovedF f = countFilesF f := by
  cases f with
  | nil => rfl
  | cons n rest =>
    rw [allRemovableF, Bool.and_eq_true] at h
    rw [countRemovedF, countFilesF, countRemoved_eq_countFiles n h.1,
      countRemovedF_eq_countFilesF rest h.2]
end

mutual
theorem pruneNode_none (t : FsNode) (h : allRemovable t = true) :
    pruneNode t = none := by
  cases t with
  | file n r =>
    rw [allRemovable] at h
    rw [pruneNode, if_pos h]
  | dir n cs =>
    rw [allRemovable] at h
    rw [pruneNode, pruneForest_nil cs h]

theorem pruneForest_nil (f : FsForest) (h : allRemovableF f = true) :
    pruneForest f = .nil := by
  cases f with
  | nil => rfl
  | cons n rest =>
    rw [allRemovableF, Bool.and_eq_true] at h
    rw [pruneForest, pruneNode_none n h.1, pruneForest_nil rest h.2]
end

end Mole

namespace Mole

/-- C6: when deletion fully succeeds (every file in the subtree is
removable), `deletePathWithProgress` removes the subtree from the
filesystem, returns a count equal to the number of files actually
removed (all of them), and the delete-completion branch of
`model.Update` marks every navigation-history entry and every cached
per-path snapshot dirty, so the next visit rescans. -/
theorem deletePath_success_spec (root : String) (tree : FsNode) (m : UiModel)
    (hall : allRemovable tree = true) :
    (deletePathWithProgress (some tree) root).count = countFiles tree ∧
    (deletePathWithProgress (some tree) root).fsError = none ∧
    (deletePathWithProgress (some tree) root).remaining = none ∧
    (∀ h ∈ (applyDeleteDone m
        (deletePathWithProgress (some tree) root).fsError).history,
      h.dirty = true) ∧
    (∀ kv ∈ (applyDeleteDone m
        (deletePathWithProgress (some tree) root).fsError).cache,
      kv.2.dirty = true) := by
  have herr : (deletePathWithProgress (some tree) root).fsError = none := by
    show (if allRemovable tree = true then none else some "remove failed") = none
    rw [if_pos hall]
  refine ⟨?_, herr, ?_, ?_, ?_⟩
  · unfold deletePathWithProgress
    exact countRemoved_eq_countFiles tree hall
  · unfold deletePathWithProgress
    exact pruneNode_none tree hall
  · rw [herr]
    intro h hmem
    unfold applyDeleteDone at hmem
    obtain ⟨h0, _, hh⟩ := List.mem_map.mp hmem
    rw [← hh]
  · rw [herr]
    intro kv hmem
    unfold applyDeleteDone at hmem
    obtain ⟨kv0, _, hh⟩ := List.mem_map.mp hmem
    rw [← hh]

/-- A concrete fully-removable subtree: a directory with two files. -/
def treeTwoFiles : FsNode :=
  .dir "d" (.cons (.file "a.bin" true) (.cons (.file "b.bin" true) .nil))

/-- A concrete UI model with one history entry and one cached snapshot,
both clean. -/
def uiModelTwo : UiModel :=
  { history := [{ path := "/t", dirty := false }],
    cache := [("/t/d", { path := "/t/d", dirty := false })] }

/-- Witness for C6: deleting the two-file directory reports 2 removed
files, no error, nothing remaining, and dirties the model's history and
cache. -/
theorem deletePath_success_spec_witness :
    (deletePathWithProgress (some treeTwoFiles) "/t/d").count = countFiles treeTwoFiles ∧
    (deletePathWithProgress (some treeTwoFiles) "/t/d").fsError = none ∧
    (deletePathWithProgress (some treeTwoFiles) "/t/d").remaining = none ∧
    (∀ h ∈ (applyDeleteDone uiModelTwo
        (deletePathWithProgress (some treeTwoFiles) "/t/d").fsError).history,
      h.dirty = true) ∧
    (∀ kv ∈ (applyDeleteDone uiModelTwo
        (deletePathWithProgress (some treeTwoFiles) "/t/d").fsError).cache,
      kv.2.dirty = true) :=
  deletePath_success_spec "/t/d" treeTwoFiles uiModelTwo rfl

/-- C5 (counterexample): the claim says an empty or relative path is
rejected immediately with no filesystem I/O; in fact
`deletePathWithProgress` starts the walk unconditionally — even the
empty path produces filesystem calls and a success report (count 0, no
error) instead of a rejection. -/
theorem deletePath_validation_counterexample :
    (deletePathWithProgress none "").ops ≠ [] ∧
    (deletePathWithProgress none "").fsError = none ∧
    (deletePathWithProgress none "relative/path").ops =
      [FsOp.walkDir "relative/path", FsOp.removeAll "relative/path"] := by
  refine ⟨by decide, rfl, rfl⟩

/-- C5 (amended): the delete operation performs no input validation:
for every input — empty and relative paths included — it immediately
issues the filesystem walk, and a nonexistent (for example empty) path
returns count 0 with no error rather than a rejection. -/
theorem deletePath_no_validation (fsAtRoot : Option FsNode) (root : String) :
    (deletePathWithProgress fsAtRoot root).ops.head? = some (FsOp.walkDir root) ∧
    (fsAtRoot = none → (deletePathWithProgress fsAtRoot root).count = 0 ∧
      (deletePathWithProgress fsAtRoot root).fsError = none) := by
  cases fsAtRoot with
  | none => exact ⟨rfl, fun _ => ⟨rfl, rfl⟩⟩
  | some tree => exact ⟨rfl, fun h => Option.noConfusion h⟩

/-- Witness for C5 at the empty path over a nonexistent target. -/
theorem deletePath_no_validation_witness :
    (deletePathWithProgress none "").count = 0 ∧
    (deletePathWithProgress none "").fsError = none :=
  (deletePath_no_validation none "").2 rfl

end Mole

namespace Mole

/-! ### Single-flight scan deduplication (main.go lines 235-236 and
587-597).

Modelled from the spec: the deduplication itself is performed by
`singleflight.Group` from the external module `golang.org/x/sync`,
whose source is not part of this repository; only its declaration
(`var scanGroup singleflight.Group`) and call site
(`scanGroup.Do(path, ...)` inside `scanCmd`) are.  Per the library's
documented contract, restated in spec section 4.4: `Do` executes the
function only when no call for the key is in flight, and a duplicate
caller waits for the in-flight call and receives the same result.  The
state machine below models one key's group. -/

structure SFState where
  inFlight : Bool
  leader : Option Nat
  waiters : List Nat
  walksStarted : Nat
  delivered : List (Nat × Nat)
deriving Repr, DecidableEq

/-- A group with no call in flight and nothing delivered. -/
def sfInit : SFState :=
  { inFlight := false
    leader := none
    waiters := []
    walksStarted := 0
    delivered := [] }

inductive SFEvent where
  | arrive (c : Nat)
  | complete (r : Nat)
deriving Repr, DecidableEq

/-- Modelled from the spec: one step of the group.  An arriving caller
starts the underlying walk when none is in flight and is otherwise
parked as a duplicate; completion delivers the walk's result to the
leader and every parked duplicate. -/
def sfStep (s : SFState) (e : SFEvent) : SFState :=
  match e with
  | .arrive c =>
    if s.inFlight then
      { s with waiters := s.waiters ++ [c] }
    else
      { s with
        inFlight := true
        leader := some c
        walksStarted := s.walksStarted + 1 }
  | .complete r =>
    if s.inFlight then
      { inFlight := false
        leader := none
        waiters := []
        walksStarted := s.walksStarted
        delivered := s.delivered ++
          ((match s.leader with | some c => [(c, r)] | none => []) ++
            s.waiters.map (fun c => (c, r))) }
    else s

def sfRun (s : SFState) (es : List SFEvent) : SFState := es.foldl sfStep s

theorem sfRun_arrivals (rest : List Nat) (s : SFState) (h : s.inFlight = true) :
    (sfRun s (rest.map SFEvent.arrive)).inFlight = true ∧
    (sfRun s (rest.map SFEvent.arrive)).leader = s.leader ∧
    (sfRun s (rest.map SFEvent.arrive)).waiters = s.waiters ++ rest ∧
    (sfRun s (rest.map SFEvent.arrive)).walksStarted = s.walksStarted ∧
    (sfRun s (rest.map SFEvent.arrive)).delivered = s.delivered := by
  induction rest generalizing s with
  | nil => exact ⟨h, rfl, by simp [sfRun], rfl, rfl⟩
  | cons c cs ih =>
    have hstep : sfStep s (SFEvent.arrive c) = { s with waiters := s.waiters ++ [c] } := by
      simp only [sfStep]
      rw [if_pos h]
    have hrun : sfRun s ((c :: cs).map SFEvent.arrive) =
        sfRun { s with waiters := s.waiters ++ [c] } (cs.map SFEvent.arrive) := by
      show sfRun (sfStep s (SFEvent.arrive c)) (cs.map SFEvent.arrive) = _
      rw [hstep]
    obtain ⟨i1, i2, i3, i4, i5⟩ := ih { s with waiters := s.waiters ++ [c] } h
    rw [hrun]
    refine ⟨i1, i2, ?_, i4, i5⟩
    rw [i3]
    simp

/-- C9 (spec-modelled): when N callers request a scan of the same
uncached path concurrently — every arrival happens before the single
walk completes — exactly one underlying walk starts, and every caller
is delivered that one walk's result. -/
theorem singleflight_dedup (callers : List Nat) (r : Nat) (hne : callers ≠ []) :
    (sfRun sfInit (callers.map SFEvent.arrive ++ [SFEvent.complete r])).walksStarted
      = 1 ∧
    (∀ c ∈ callers, (c, r) ∈
      (sfRun sfInit (callers.map SFEvent.arrive ++ [SFEvent.complete r])).delivered) ∧
    (∀ p ∈ (sfRun sfInit
        (callers.map SFEvent.arrive ++ [SFEvent.complete r])).delivered,
      p.2 = r) := by
  cases callers with
  | nil => exact absurd rfl hne
  | cons c0 rest =>
    have hsplit : sfRun sfInit ((c0 :: rest).map SFEvent.arrive ++ [SFEvent.complete r]) =
        sfStep (sfRun (sfStep sfInit (SFEvent.arrive c0)) (rest.map SFEvent.arrive))
          (SFEvent.complete r) := by
      show ((c0 :: rest).map SFEvent.arrive ++ [SFEvent.complete r]).foldl sfStep sfInit = _
      rw [List.foldl_append]
      rfl
    have hfirst : sfStep sfInit (SFEvent.arrive c0) =
        { inFlight := true
          leader := some c0
          waiters := []
          walksStarted := 1
          delivered := [] } := by rfl
    obtain ⟨i1, i2, i3, i4, i5⟩ := sfRun_arrivals rest
      { inFlight := true
        leader := some c0
        waiters := []
        walksStarted := 1
        delivered := [] } rfl
    rw [hsplit, hfirst]
    have hfinal : sfStep (sfRun
        { inFlight := true
          leader := some c0
          waiters := []
          walksStarted := 1
          delivered := [] } (rest.map SFEvent.arrive))
        (SFEvent.complete r) =
        { inFlight := false
          leader := none
          waiters := []
          walksStarted := 1
          delivered := (c0, r) :: rest.map (fun c => (c, r)) } := by
      simp only [sfStep]
      rw [if_pos i1, i2, i3, i4, i5]
      simp
    rw [hfinal]
    refine ⟨rfl, ?_, ?_⟩
    · intro c hc
      rcases List.mem_cons.mp hc with hc | hc
      · rw [hc]
        exact List.mem_cons_self _ _
      · exact List.mem_cons_of_mem _ (List.mem_map.mpr ⟨c, hc, rfl⟩)
    · intro p hp
      rcases List.mem_cons.mp hp with hp | hp
      · rw [hp]
      · obtain ⟨c, _, hc⟩ := List.mem_map.mp hp
        rw [← hc]

/-- Witness for C9: three concurrent callers, one walk, all three served
with its result. -/
theorem singleflight_dedup_witness :
    (sfRun sfInit ([1, 2, 3].map SFEvent.arrive ++ [SFEvent.complete 7])).walksStarted
      = 1 ∧
    (1, 7) ∈ (sfRun sfInit
      ([1, 2, 3].map SFEvent.arrive ++ [SFEvent.complete 7])).delivered := by
  obtain ⟨h1, h2, _⟩ := singleflight_dedup [1, 2, 3] 7 (by decide)
  exact ⟨h1, h2 1 (by decide)⟩

end Mole

namespace Mole

/-- Witness for C4 at a concrete scan whose Spotlight query failed: the
walk-collected large files all reach 100 MiB. -/
theorem scanPathConcurrent_result_spec_witness :
    ∀ f ∈ (scanPostprocess [⟨"a", "/t/a", 5, true, 0⟩]
        [⟨"b.bin", "/t/b.bin", 209715200⟩] none 0).largeFiles,
      minLargeFileSize ≤ f.size :=
  (scanPathConcurrent_result_spec [⟨"a", "/t/a", 5, true, 0⟩]
    [⟨"b.bin", "/t/b.bin", 209715200⟩] none 0).2.2.2.2.2 rfl

end Mole
